import Mathlib

/-!
Wavelength to sRGB: a verification development

Shallow embedding of `wavelength_to_rgb.cpp`.

Modelling conventions.

* A C++ `double` is idealised as an element of a linearly ordered field `α`
  (instantiated at `ℝ` in the theorems, and at `ℚ` when a value is to be
  computed).  Decimal literals denote the exact decimal rational.
* `pow` from `<cmath>` is a parameter `pow : α → α → α` of the definitions;
  the theorems instantiate it with `Real.rpow`, which agrees with `pow` on the
  non-negative bases the program feeds it.
* The colour matching table lives in the header `cie_color_match.h`; it is a
  parameter `table : List (α × α × α)` (one `(X, Y, Z)` row per entry, declared
  in the source comment as `[351][3]`).
* The reference parameters `r, g, b` written by the two converters are the
  components of the returned triple.
* An array read outside the table has no defined value in C++; the model
  returns `none` there.
* `main` is modelled by what it writes: the numbers of the `P3` header and the
  list of pixel lines; each `for` loop is a recursive function of its counter.
-/

namespace WavelengthToRGB

section Approximate

variable {α : Type} [LinearOrderedField α]

/-- Branch `380 <= lambda < 440` of `approx_wavelength_to_rgb` (source lines 98-100). -/
def band_380_440 (lambda : α) : α × α × α :=
  (-(lambda - 440) / (440 - 380), 0.0, 1.0)

/-- Branch `440 <= lambda < 490` (source lines 103-105). -/
def band_440_490 (lambda : α) : α × α × α :=
  (0.0, (lambda - 440) / (490 - 440), 1.0)

/-- Branch `490 <= lambda < 510` (source lines 109-111). -/
def band_490_510 (lambda : α) : α × α × α :=
  (0.0, 1.0, -(lambda - 510) / (510 - 490))

/-- Branch `510 <= lambda < 580` (source lines 115-117). -/
def band_510_580 (lambda : α) : α × α × α :=
  ((lambda - 510) / (580 - 510), 1.0, 0.0)

/-- Branch `580 <= lambda < 645` (source lines 121-123). -/
def band_580_645 (lambda : α) : α × α × α :=
  (1.0, -(lambda - 645) / (645 - 580), 0.0)

/-- Branch `645 <= lambda < 781` (source lines 126-128). -/
def band_645_781 (_lambda : α) : α × α × α :=
  (1.0, 0.0, 0.0)

/-- The final `else` branch (source lines 130-132). -/
def band_else (_lambda : α) : α × α × α :=
  (0.0, 0.0, 0.0)

/-- The first `if`/`else if` chain of `approx_wavelength_to_rgb`
(source lines 96-133): the values of `r, g, b` before gamma correction. -/
def approx_bands (lambda : α) : α × α × α :=
  if lambda ≥ 380 ∧ lambda < 440 then band_380_440 lambda
  else if lambda ≥ 440 ∧ lambda < 490 then band_440_490 lambda
  else if lambda ≥ 490 ∧ lambda < 510 then band_490_510 lambda
  else if lambda ≥ 510 ∧ lambda < 580 then band_510_580 lambda
  else if lambda ≥ 580 ∧ lambda < 645 then band_580_645 lambda
  else if lambda ≥ 645 ∧ lambda < 781 then band_645_781 lambda
  else band_else lambda

/-- The second `if`/`else if` chain of `approx_wavelength_to_rgb`
(source lines 135-146): the local variable `falloff`. -/
def approx_falloff (lambda : α) : α :=
  if lambda ≥ 380 ∧ lambda < 420 then 0.3 + 0.7 * (lambda - 380) / (420 - 380)
  else if lambda ≥ 420 ∧ lambda < 701 then 1.0
  else if lambda ≥ 701 ∧ lambda < 781 then 0.3 + 0.7 * (780 - lambda) / (780 - 700)
  else 0.0

/-- The constant `static double gamma = 0.8` (source line 93). -/
def gamma : α := 0.8

/-- One gamma-correction line of `approx_wavelength_to_rgb`
(source lines 148-150): `(c == 0.0) ? 0 : pow(c*falloff, gamma)`. -/
def approx_gamma (pow : α → α → α) (falloff c : α) : α :=
  if c = 0.0 then 0 else pow (c * falloff) gamma

/-- The function `approx_wavelength_to_rgb` (source lines 90-151). -/
def approx_wavelength_to_rgb (pow : α → α → α) (lambda : α) : α × α × α :=
  let rgb := approx_bands lambda
  let falloff := approx_falloff lambda
  (approx_gamma pow falloff rgb.1,
   approx_gamma pow falloff rgb.2.1,
   approx_gamma pow falloff rgb.2.2)

end Approximate

/-- The array read `cie_colour_match[idx]`.  Inside the table it yields the row;
outside it the read has no defined value. -/
def cie_colour_match {α : Type} (table : List (α × α × α)) (idx : Int) :
    Option (α × α × α) :=
  if 0 ≤ idx then table[idx.toNat]? else none

section Physical

variable {α : Type} [LinearOrderedField α] [FloorRing α]

/-- The implicit conversion `double -> int` of `int idx = (lambda - 400)`:
the fractional part is discarded (truncation toward zero). -/
def double_to_int (x : α) : Int :=
  if 0 ≤ x then Int.floor x else Int.ceil x

/-- One gamma-encoding line of `wavelength_to_rgb` (source lines 82-84):
`(c <= 0.0031308) ? 12.92*c : 1.055*pow(c, (1/2.4)) - 0.055`. -/
def srgb_gamma (pow : α → α → α) (c : α) : α :=
  if c ≤ 0.0031308 then 12.92 * c else 1.055 * pow c (1 / 2.4) - 0.055

set_option linter.unusedVariables false in
/-- The function `wavelength_to_rgb` (source lines 44-85). -/
def wavelength_to_rgb (pow : α → α → α) (table : List (α × α × α)) (lambda : α) :
    Option (α × α × α) :=
  let idx : Int := double_to_int (lambda - 400)
  match cie_colour_match table idx with
  | none => none
  | some (X, Y, Z) =>
    let magnitude := X + Y + Z
    let x := X / magnitude
    let y := Y / magnitude
    let z := 1 - (x + y)
    -- `x = X, y = Y, z = Z;` (source line 62) overwrites all three
    let x := X
    let y := Y
    let z := Z
    let r := 3.2404542 * x - 1.5371385 * y - 0.4985314 * z
    let g := -0.9692660 * x + 1.8760108 * y + 0.0415560 * z
    let b := 0.0556434 * x - 0.2040259 * y + 1.0572252 * z
    some (srgb_gamma pow r, srgb_gamma pow g, srgb_gamma pow b)

end Physical

section Clamp

variable {α : Type} [LinearOrderedField α]

/-- The function `clamp` (source lines 27-30), its three arguments explicit:
`(x < min) ? min : (x > max) ? max : x`. -/
def clamp (x min max : α) : α :=
  if x < min then min else if x > max then max else x

/-- A call `clamp(x)` that leaves both bounds to the defaults of the
declaration, `double min = 0.0, double max = 0.99` (source line 27). -/
def clamp_default (x : α) : α :=
  clamp x 0.0 0.99

end Clamp

section Quantise

variable {α : Type} [LinearOrderedField α] [FloorRing α]

/-- One line of `rgb_clamp` (source lines 35-37):
`static_cast<int>(255.999 * clamp(c))`, stored back into a `double`. -/
def rgb_clamp_channel (c : α) : α :=
  ((double_to_int (255.999 * clamp_default c) : Int) : α)

/-- The function `rgb_clamp` (source lines 33-38). -/
def rgb_clamp (rgb : α × α × α) : α × α × α :=
  (rgb_clamp_channel rgb.1, rgb_clamp_channel rgb.2.1, rgb_clamp_channel rgb.2.2)

end Quantise

/-- The text written to the `.ppm` file: the three numbers of the `P3` header
and the pixel lines that follow it, in order. -/
structure PPM (β : Type) where
  /-- First number of the header line. -/
  width : Int
  /-- Second number of the header line. -/
  height : Int
  /-- The `255` of the header. -/
  maxval : Int
  /-- The lines `r g b` written after the header. -/
  body : List β

/-- The loop `for (int s=0; s<px_per_wavelength; ++s)` of `main`
(source lines 179-182), entered with counter `s`: one line per iteration. -/
def pixel_loop {β : Type} (line : β) (px_per_wavelength : Int) (s : Int) : List β :=
  if s < px_per_wavelength then line :: pixel_loop line px_per_wavelength (s + 1)
  else []
termination_by (px_per_wavelength - s).toNat
decreasing_by omega

/-- The loop `for (int i=400; i<700; ++i)` of `main` (source lines 174-183),
entered with counter `i`; `pixel i` is the line computed for wavelength `i`. -/
def sample_loop {β : Type} (pixel : Int → β) (px_per_wavelength : Int) (i : Int) : List β :=
  if i < 700 then
    pixel_loop (pixel i) px_per_wavelength 0 ++ sample_loop pixel px_per_wavelength (i + 1)
  else []
termination_by (700 - i).toNat
decreasing_by omega

/-- The loop `for (int j=image_height; j>=0; --j)` of `main`
(source lines 168-184), entered with counter `j`. -/
def row_loop {β : Type} (pixel : Int → β) (px_per_wavelength : Int) (j : Int) : List β :=
  if j ≥ 0 then
    sample_loop pixel px_per_wavelength 400 ++ row_loop pixel px_per_wavelength (j - 1)
  else []
termination_by (j + 1).toNat
decreasing_by omega

/-- The local `int px_per_wavelength = 2` of `main` (source line 155). -/
def px_per_wavelength : Int := 2

/-- The local `int vis_spectrum_range = 700 - 400` (source line 156). -/
def vis_spectrum_range : Int := 700 - 400

/-- The local `image_width` (source line 160). -/
def image_width : Int := vis_spectrum_range * px_per_wavelength

/-- The local `image_height` (source line 161). -/
def image_height : Int := 100

section Main

variable {α : Type} [LinearOrderedField α] [FloorRing α]

/-- The two calls of source lines 176-177 for the sample `i`:
`wavelength_to_rgb(i, r, g, b); rgb_clamp(r, g, b);`. -/
def main_pixel (pow : α → α → α) (table : List (α × α × α)) (i : Int) :
    Option (α × α × α) :=
  (wavelength_to_rgb pow table (i : α)).map rgb_clamp

/-- The function `main` (source lines 153-188): the header and the pixel lines
it writes to the file. -/
def main (pow : α → α → α) (table : List (α × α × α)) : PPM (Option (α × α × α)) :=
  { width := image_width
    height := image_height
    maxval := 255
    body := row_loop (main_pixel pow table) px_per_wavelength image_height }

end Main

/-! ## Band ramps of the approximate converter -/

section BandLemmas

variable {α : Type} [LinearOrderedField α]

theorem approx_bands_380_440 (lam : α) (h1 : 380 ≤ lam) (h2 : lam < 440) :
    approx_bands lam = band_380_440 lam := by
  unfold approx_bands
  rw [if_pos ⟨h1, h2⟩]

theorem approx_bands_440_490 (lam : α) (h1 : 440 ≤ lam) (h2 : lam < 490) :
    approx_bands lam = band_440_490 lam := by
  unfold approx_bands
  rw [if_neg (by intro h; linarith [h.2]), if_pos ⟨h1, h2⟩]

theorem approx_bands_490_510 (lam : α) (h1 : 490 ≤ lam) (h2 : lam < 510) :
    approx_bands lam = band_490_510 lam := by
  unfold approx_bands
  rw [if_neg (by intro h; linarith [h.2]), if_neg (by intro h; linarith [h.2]),
    if_pos ⟨h1, h2⟩]

theorem approx_bands_510_580 (lam : α) (h1 : 510 ≤ lam) (h2 : lam < 580) :
    approx_bands lam = band_510_580 lam := by
  unfold approx_bands
  rw [if_neg (by intro h; linarith [h.2]), if_neg (by intro h; linarith [h.2]),
    if_neg (by intro h; linarith [h.2]), if_pos ⟨h1, h2⟩]

theorem approx_bands_580_645 (lam : α) (h1 : 580 ≤ lam) (h2 : lam < 645) :
    approx_bands lam = band_580_645 lam := by
  unfold approx_bands
  rw [if_neg (by intro h; linarith [h.2]), if_neg (by intro h; linarith [h.2]),
    if_neg (by intro h; linarith [h.2]), if_neg (by intro h; linarith [h.2]),
    if_pos ⟨h1, h2⟩]

theorem approx_bands_645_781 (lam : α) (h1 : 645 ≤ lam) (h2 : lam < 781) :
    approx_bands lam = band_645_781 lam := by
  unfold approx_bands
  rw [if_neg (by intro h; linarith [h.2]), if_neg (by intro h; linarith [h.2]),
    if_neg (by intro h; linarith [h.2]), if_neg (by intro h; linarith [h.2]),
    if_neg (by intro h; linarith [h.2]), if_pos ⟨h1, h2⟩]

theorem approx_bands_outside (lam : α) (h : lam < 380 ∨ 781 ≤ lam) :
    approx_bands lam = band_else lam := by
  unfold approx_bands
  rw [if_neg (by intro k; rcases h with h | h <;> linarith [k.1, k.2]),
    if_neg (by intro k; rcases h with h | h <;> linarith [k.1, k.2]),
    if_neg (by intro k; rcases h with h | h <;> linarith [k.1, k.2]),
    if_neg (by intro k; rcases h with h | h <;> linarith [k.1, k.2]),
    if_neg (by intro k; rcases h with h | h <;> linarith [k.1, k.2]),
    if_neg (by intro k; rcases h with h | h <;> linarith [k.1, k.2])]

theorem approx_falloff_plateau (lam : α) (h1 : 420 ≤ lam) (h2 : lam < 701) :
    approx_falloff lam = 1 := by
  unfold approx_falloff
  rw [if_neg (by intro k; linarith [k.2]), if_pos ⟨h1, h2⟩]
  norm_num

theorem approx_falloff_outside (lam : α) (h : lam < 380 ∨ 781 ≤ lam) :
    approx_falloff lam = 0 := by
  unfold approx_falloff
  rw [if_neg (by intro k; rcases h with h | h <;> linarith [k.1, k.2]),
    if_neg (by intro k; rcases h with h | h <;> linarith [k.1, k.2]),
    if_neg (by intro k; rcases h with h | h <;> linarith [k.1, k.2])]
  norm_num

end BandLemmas

/-- C1. For every real wavelength the pre-gamma ramps computed by
`approx_wavelength_to_rgb` are the tabulated band values on the half-open bands
`[380,440)`, `[440,490)`, `[490,510)`, `[510,580)`, `[580,645)`, `[645,781)`,
and `(0,0,0)` elsewhere; each of the boundary values 440, 490, 510, 580, 645 is
served by the band that starts there. -/
theorem approx_bands_table (lam : ℝ) :
    (380 ≤ lam ∧ lam < 440 → approx_bands lam = (-(lam - 440) / 60, 0, 1)) ∧
    (440 ≤ lam ∧ lam < 490 → approx_bands lam = (0, (lam - 440) / 50, 1)) ∧
    (490 ≤ lam ∧ lam < 510 → approx_bands lam = (0, 1, -(lam - 510) / 20)) ∧
    (510 ≤ lam ∧ lam < 580 → approx_bands lam = ((lam - 510) / 70, 1, 0)) ∧
    (580 ≤ lam ∧ lam < 645 → approx_bands lam = (1, -(lam - 645) / 65, 0)) ∧
    (645 ≤ lam ∧ lam < 781 → approx_bands lam = (1, 0, 0)) ∧
    (lam < 380 ∨ 781 ≤ lam → approx_bands lam = (0, 0, 0)) ∧
    approx_bands (440 : ℝ) = (0, (440 - 440) / 50, 1) ∧
    approx_bands (490 : ℝ) = (0, 1, -(490 - 510) / 20) ∧
    approx_bands (510 : ℝ) = ((510 - 510) / 70, 1, 0) ∧
    approx_bands (580 : ℝ) = (1, -(580 - 645) / 65, 0) ∧
    approx_bands (645 : ℝ) = (1, 0, 0) := by
  refine ⟨?_, ?_, ?_, ?_, ?_, ?_, ?_, ?_, ?_, ?_, ?_, ?_⟩
  · rintro ⟨h1, h2⟩
    rw [approx_bands_380_440 lam h1 h2]; unfold band_380_440; norm_num
  · rintro ⟨h1, h2⟩
    rw [approx_bands_440_490 lam h1 h2]; unfold band_440_490; norm_num
  · rintro ⟨h1, h2⟩
    rw [approx_bands_490_510 lam h1 h2]; unfold band_490_510; norm_num
  · rintro ⟨h1, h2⟩
    rw [approx_bands_510_580 lam h1 h2]; unfold band_510_580; norm_num
  · rintro ⟨h1, h2⟩
    rw [approx_bands_580_645 lam h1 h2]; unfold band_580_645; norm_num
  · rintro ⟨h1, h2⟩
    rw [approx_bands_645_781 lam h1 h2]; unfold band_645_781; norm_num
  · intro h
    rw [approx_bands_outside lam h]; unfold band_else; norm_num
  · rw [approx_bands_440_490 440 (by norm_num) (by norm_num)]
    unfold band_440_490; norm_num
  · rw [approx_bands_490_510 490 (by norm_num) (by norm_num)]
    unfold band_490_510; norm_num
  · rw [approx_bands_510_580 510 (by norm_num) (by norm_num)]
    unfold band_510_580; norm_num
  · rw [approx_bands_580_645 580 (by norm_num) (by norm_num)]
    unfold band_580_645; norm_num
  · rw [approx_bands_645_781 645 (by norm_num) (by norm_num)]
    unfold band_645_781; norm_num

/-- Instance of C1 at 400 nm, inside the first band. -/
theorem approx_bands_table_witness :
    approx_bands (400 : ℝ) = (-(400 - 440) / 60, 0, 1) :=
  (approx_bands_table 400).1 ⟨by norm_num, by norm_num⟩

/-! ## Gamma step and falloff of the approximate converter -/

/-- C2. For every real wavelength and each channel, the output of
`approx_wavelength_to_rgb` is 0 when the channel's band ramp `c` is exactly 0,
and `(c * falloff) ^ 0.8` otherwise, with `c` and `falloff` taken at the same
wavelength. -/
theorem approx_gamma_step (lam : ℝ) :
    ((approx_bands lam).1 = 0 → (approx_wavelength_to_rgb Real.rpow lam).1 = 0) ∧
    ((approx_bands lam).1 ≠ 0 → (approx_wavelength_to_rgb Real.rpow lam).1 =
      ((approx_bands lam).1 * approx_falloff lam) ^ (0.8 : ℝ)) ∧
    ((approx_bands lam).2.1 = 0 → (approx_wavelength_to_rgb Real.rpow lam).2.1 = 0) ∧
    ((approx_bands lam).2.1 ≠ 0 → (approx_wavelength_to_rgb Real.rpow lam).2.1 =
      ((approx_bands lam).2.1 * approx_falloff lam) ^ (0.8 : ℝ)) ∧
    ((approx_bands lam).2.2 = 0 → (approx_wavelength_to_rgb Real.rpow lam).2.2 = 0) ∧
    ((approx_bands lam).2.2 ≠ 0 → (approx_wavelength_to_rgb Real.rpow lam).2.2 =
      ((approx_bands lam).2.2 * approx_falloff lam) ^ (0.8 : ℝ)) := by
  have z : (0.0 : ℝ) = 0 := by norm_num
  refine ⟨?_, ?_, ?_, ?_, ?_, ?_⟩ <;> intro h <;>
    simp only [approx_wavelength_to_rgb, approx_gamma, gamma, z, h, if_true, if_false,
      Real.rpow_eq_pow]

/-- Instance of C2 at 400 nm: the green ramp is 0 there, so the green output
is 0. -/
theorem approx_gamma_step_witness :
    (approx_wavelength_to_rgb Real.rpow (400 : ℝ)).2.1 = 0 :=
  (approx_gamma_step 400).2.2.1 (by
    rw [approx_bands_380_440 400 (by norm_num) (by norm_num)]
    unfold band_380_440; norm_num)

/-- C3. For every real wavelength below 380 or at least 781,
`approx_wavelength_to_rgb` returns exactly `(0, 0, 0)` and the falloff is 0;
the function is total, so there is no error outcome. -/
theorem approx_outside_visible (pow : ℝ → ℝ → ℝ) (lam : ℝ)
    (h : lam < 380 ∨ 781 ≤ lam) :
    approx_wavelength_to_rgb pow lam = (0, 0, 0) ∧ approx_falloff lam = 0 := by
  refine ⟨?_, approx_falloff_outside lam h⟩
  unfold approx_wavelength_to_rgb
  rw [approx_bands_outside lam h]
  simp [band_else, approx_gamma]

/-- Instance of C3 at 300 nm. -/
theorem approx_outside_visible_witness :
    approx_wavelength_to_rgb Real.rpow (300 : ℝ) = (0, 0, 0) ∧
      approx_falloff (300 : ℝ) = 0 :=
  approx_outside_visible Real.rpow 300 (Or.inl (by norm_num))

/-- C4. The falloff is `1.0` for every real wavelength in `[420, 700]` and `0`
for every real wavelength below 380 or at least 781. -/
theorem approx_falloff_values (lam : ℝ) :
    (420 ≤ lam ∧ lam ≤ 700 → approx_falloff lam = 1.0) ∧
    (lam < 380 ∨ 781 ≤ lam → approx_falloff lam = 0) := by
  constructor
  · rintro ⟨h1, h2⟩
    rw [approx_falloff_plateau lam h1 (by linarith)]
    norm_num
  · exact approx_falloff_outside lam

/-- Instance of C4 at 550 nm. -/
theorem approx_falloff_values_witness : approx_falloff (550 : ℝ) = 1.0 :=
  (approx_falloff_values 550).1 ⟨by norm_num, by norm_num⟩

/-! ## The physical converter -/

section IndexLemmas

variable {α : Type} [LinearOrderedField α] [FloorRing α]

theorem double_to_int_of_nonneg (x : α) (h : 0 ≤ x) : double_to_int x = Int.floor x := by
  unfold double_to_int
  rw [if_pos h]

theorem double_to_int_of_neg (x : α) (h : x < 0) : double_to_int x = Int.ceil x := by
  unfold double_to_int
  rw [if_neg (not_le.mpr h)]

/-- The truncated index is non-negative exactly when `x > -1`. -/
theorem double_to_int_nonneg_iff (x : α) : 0 ≤ double_to_int x ↔ -1 < x := by
  by_cases h : 0 ≤ x
  · rw [double_to_int_of_nonneg x h]
    constructor
    · intro _; linarith
    · intro _; exact Int.floor_nonneg.mpr h
  · have hx : x < 0 := not_le.mp h
    rw [double_to_int_of_neg x hx]
    constructor
    · intro k
      have : ((-1 : Int) : α) < x := Int.lt_ceil.mp (by omega)
      simpa using this
    · intro k
      have : (-1 : Int) < Int.ceil x := Int.lt_ceil.mpr (by simpa using k)
      omega

/-- The truncated index is below `n` exactly when `x < n`, for positive `n`. -/
theorem double_to_int_lt_iff (x : α) (n : Int) (hn : 0 < n) :
    double_to_int x < n ↔ x < n := by
  by_cases h : 0 ≤ x
  · rw [double_to_int_of_nonneg x h]
    exact Int.floor_lt
  · have hx : x < 0 := not_le.mp h
    rw [double_to_int_of_neg x hx]
    have hn' : (0 : α) < n := by exact_mod_cast hn
    constructor
    · intro _; linarith
    · intro _
      have : Int.ceil x ≤ 0 := Int.ceil_le.mpr (by simpa using hx.le)
      omega

end IndexLemmas

theorem cie_colour_match_eq_some {α : Type} (table : List (α × α × α)) (idx : Int)
    (h0 : 0 ≤ idx) (h1 : idx < table.length) :
    ∃ k : idx.toNat < table.length, cie_colour_match table idx = some (table[idx.toNat]) := by
  have k : idx.toNat < table.length := by omega
  refine ⟨k, ?_⟩
  unfold cie_colour_match
  rw [if_pos h0, List.getElem?_eq_getElem k]

theorem cie_colour_match_eq_none {α : Type} (table : List (α × α × α)) (idx : Int)
    (h : idx < 0 ∨ (table.length : Int) ≤ idx) : cie_colour_match table idx = none := by
  unfold cie_colour_match
  by_cases h0 : 0 ≤ idx
  · rw [if_pos h0]
    exact List.getElem?_eq_none_iff.mpr (by omega)
  · rw [if_neg h0]

section UnfoldLemmas

variable {α : Type} [LinearOrderedField α] [FloorRing α]

/-- Unfolding of `wavelength_to_rgb` once the row that is read is known. -/
theorem wavelength_to_rgb_of_row (pow : α → α → α) (table : List (α × α × α)) (lam : α)
    (X Y Z : α) (h : cie_colour_match table (double_to_int (lam - 400)) = some (X, Y, Z)) :
    wavelength_to_rgb pow table lam =
      some (srgb_gamma pow (3.2404542 * X - 1.5371385 * Y - 0.4985314 * Z),
            srgb_gamma pow (-0.9692660 * X + 1.8760108 * Y + 0.0415560 * Z),
            srgb_gamma pow (0.0556434 * X - 0.2040259 * Y + 1.0572252 * Z)) := by
  unfold wavelength_to_rgb
  simp only [h]

theorem wavelength_to_rgb_of_none (pow : α → α → α) (table : List (α × α × α)) (lam : α)
    (h : cie_colour_match table (double_to_int (lam - 400)) = none) :
    wavelength_to_rgb pow table lam = none := by
  unfold wavelength_to_rgb
  simp only [h]

end UnfoldLemmas

/-- C5. For every wavelength in the table's domain (`400 <= lam < 751`, table
of 351 rows) `wavelength_to_rgb` returns the sRGB gamma encoding
(`12.92*c` if `c <= 0.0031308`, else `1.055*c^(1/2.4) - 0.055`), applied to each
channel, of the fixed matrix applied to the raw `(X, Y, Z)` row at index
`trunc (lam - 400)` (index 150 at 550 nm); the normalised chromaticity does not
occur in the result. -/
theorem wavelength_to_rgb_in_domain (table : List (ℝ × ℝ × ℝ)) (hlen : table.length = 351)
    (lam : ℝ) (h1 : 400 ≤ lam) (h2 : lam < 751) :
    double_to_int ((550 : ℝ) - 400) = 150 ∧
    (∀ c : ℝ, srgb_gamma Real.rpow c =
      if c ≤ 0.0031308 then 12.92 * c else 1.055 * c ^ ((1 : ℝ) / 2.4) - 0.055) ∧
    0 ≤ double_to_int (lam - 400) ∧ double_to_int (lam - 400) < 351 ∧
    ∃ X Y Z : ℝ, table[(double_to_int (lam - 400)).toNat]? = some (X, Y, Z) ∧
      wavelength_to_rgb Real.rpow table lam =
        some (srgb_gamma Real.rpow (3.2404542 * X - 1.5371385 * Y - 0.4985314 * Z),
              srgb_gamma Real.rpow (-0.9692660 * X + 1.8760108 * Y + 0.0415560 * Z),
              srgb_gamma Real.rpow (0.0556434 * X - 0.2040259 * Y + 1.0572252 * Z)) := by
  have i0 : 0 ≤ double_to_int (lam - 400) :=
    (double_to_int_nonneg_iff _).mpr (by linarith)
  have i1 : double_to_int (lam - 400) < 351 :=
    (double_to_int_lt_iff _ 351 (by norm_num)).mpr (by push_cast; linarith)
  refine ⟨?_, ?_, i0, i1, ?_⟩
  · rw [double_to_int_of_nonneg _ (by norm_num)]
    have e : ((550 : ℝ) - 400) = ((150 : Int) : ℝ) := by norm_num
    rw [e, Int.floor_intCast]
  · intro c
    unfold srgb_gamma
    simp only [Real.rpow_eq_pow]
  · obtain ⟨k, hk⟩ := cie_colour_match_eq_some table _ i0 (by rw [hlen]; exact_mod_cast i1)
    rcases hrow : table[(double_to_int (lam - 400)).toNat] with ⟨X, Y, Z⟩
    refine ⟨X, Y, Z, ?_, ?_⟩
    · rw [List.getElem?_eq_getElem k, hrow]
    · exact wavelength_to_rgb_of_row _ _ _ _ _ _ (by rw [hk, hrow])

/-- Instance of C5 at 550 nm on a table of 351 zero rows. -/
theorem wavelength_to_rgb_in_domain_witness :
    ∃ X Y Z : ℝ,
      (List.replicate 351 ((0 : ℝ), (0 : ℝ), (0 : ℝ)))[(double_to_int
        ((550 : ℝ) - 400)).toNat]? = some (X, Y, Z) ∧
      wavelength_to_rgb Real.rpow (List.replicate 351 ((0 : ℝ), (0 : ℝ), (0 : ℝ))) 550 =
        some (srgb_gamma Real.rpow (3.2404542 * X - 1.5371385 * Y - 0.4985314 * Z),
              srgb_gamma Real.rpow (-0.9692660 * X + 1.8760108 * Y + 0.0415560 * Z),
              srgb_gamma Real.rpow (0.0556434 * X - 0.2040259 * Y + 1.0572252 * Z)) :=
  (wavelength_to_rgb_in_domain (List.replicate 351 ((0 : ℝ), (0 : ℝ), (0 : ℝ)))
    (List.length_replicate 351 _) 550 (by norm_num) (by norm_num)).2.2.2.2

/-- C6, as stated, fails: 399.5 nm lies below the table's 400 nm lower bound, yet
the index truncates to 0 and a colour is produced from row 0 (here on a table of
351 zero rows) instead of an error. -/
theorem wavelength_to_rgb_below_400_reads_row_zero :
    (399.5 : ℝ) < 400 ∧
    double_to_int ((399.5 : ℝ) - 400) = 0 ∧
    wavelength_to_rgb Real.rpow (List.replicate 351 ((0 : ℝ), (0 : ℝ), (0 : ℝ))) 399.5 =
      some (0, 0, 0) := by
  have e : double_to_int ((399.5 : ℝ) - 400) = 0 := by
    rw [double_to_int_of_neg _ (by norm_num)]
    rw [Int.ceil_eq_iff]
    norm_num
  refine ⟨by norm_num, e, ?_⟩
  rw [wavelength_to_rgb_of_row Real.rpow _ _ 0 0 0 (by
    rw [e]
    unfold cie_colour_match
    rw [if_pos le_rfl, List.getElem?_replicate, if_pos (by decide)])]
  simp [srgb_gamma]
  norm_num

/-- C6, amended. `wavelength_to_rgb` has no range check and no error outcome.
On a table of 351 rows a colour is produced exactly when `399 < lam < 751`, that
is when `trunc (lam - 400)` lies in `[0, 351)`; for `399 < lam < 400` the index
is 0 and the result is that of 400 nm; for `lam <= 399` or `lam >= 751` the read
is outside the table and no result is defined. -/
theorem wavelength_to_rgb_defined_iff (table : List (ℝ × ℝ × ℝ)) (hlen : table.length = 351)
    (lam : ℝ) :
    ((wavelength_to_rgb Real.rpow table lam).isSome ↔ 399 < lam ∧ lam < 751) ∧
    (399 < lam ∧ lam < 400 → double_to_int (lam - 400) = 0 ∧
      wavelength_to_rgb Real.rpow table lam = wavelength_to_rgb Real.rpow table 400) ∧
    (lam ≤ 399 ∨ 751 ≤ lam → wavelength_to_rgb Real.rpow table lam = none) := by
  have hnone : lam ≤ 399 ∨ 751 ≤ lam → wavelength_to_rgb Real.rpow table lam = none := by
    intro h
    apply wavelength_to_rgb_of_none
    apply cie_colour_match_eq_none
    rcases h with h | h
    · left
      by_contra k
      have := (double_to_int_nonneg_iff (lam - 400)).mp (not_lt.mp k)
      linarith
    · right
      rw [hlen]
      by_contra k
      have := (double_to_int_lt_iff (lam - 400) 351 (by norm_num)).mp
        (by exact_mod_cast not_le.mp k)
      push_cast at this
      linarith
  have hsome : 399 < lam ∧ lam < 751 → (wavelength_to_rgb Real.rpow table lam).isSome := by
    rintro ⟨h1, h2⟩
    have i0 : 0 ≤ double_to_int (lam - 400) :=
      (double_to_int_nonneg_iff _).mpr (by linarith)
    have i1 : double_to_int (lam - 400) < 351 :=
      (double_to_int_lt_iff _ 351 (by norm_num)).mpr (by push_cast; linarith)
    obtain ⟨k, hk⟩ := cie_colour_match_eq_some table _ i0 (by rw [hlen]; exact_mod_cast i1)
    rcases hrow : table[(double_to_int (lam - 400)).toNat] with ⟨X, Y, Z⟩
    rw [wavelength_to_rgb_of_row _ _ _ X Y Z (by rw [hk, hrow])]
    rfl
  refine ⟨⟨?_, hsome⟩, ?_, hnone⟩
  · intro h
    by_contra k
    have : lam ≤ 399 ∨ 751 ≤ lam := by
      by_cases k1 : 399 < lam
      · right; exact not_lt.mp (fun k2 => k ⟨k1, k2⟩)
      · left; exact not_lt.mp k1
    rw [hnone this] at h
    exact absurd h (by simp)
  · rintro ⟨h1, h2⟩
    have e : double_to_int (lam - 400) = 0 := by
      rw [double_to_int_of_neg _ (by linarith), Int.ceil_eq_iff]
      constructor
      · push_cast; linarith
      · push_cast; linarith
    have e400 : double_to_int ((400 : ℝ) - 400) = 0 := by
      rw [double_to_int_of_nonneg _ (by norm_num)]
      norm_num
    refine ⟨e, ?_⟩
    unfold wavelength_to_rgb
    rw [e, e400]

/-- Instance of C6 (amended) at 399 nm on a table of 351 zero rows. -/
theorem wavelength_to_rgb_defined_iff_witness :
    wavelength_to_rgb Real.rpow (List.replicate 351 ((0 : ℝ), (0 : ℝ), (0 : ℝ))) 399 = none :=
  (wavelength_to_rgb_defined_iff (List.replicate 351 ((0 : ℝ), (0 : ℝ), (0 : ℝ)))
    (List.length_replicate 351 _) 399).2.2 (Or.inl le_rfl)

/-! ## The sRGB gamma encoding -/

theorem rpow_five_twelfths_pow (b : ℝ) (hb : 0 ≤ b) :
    (b ^ ((1 : ℝ) / 2.4)) ^ 12 = b ^ 5 := by
  rw [← Real.rpow_natCast, ← Real.rpow_mul hb]
  have e : (1 : ℝ) / 2.4 * ((12 : ℕ) : ℝ) = ((5 : ℕ) : ℝ) := by norm_num
  rw [e, Real.rpow_natCast]

theorem rpow_five_twelfths_lt (b q : ℝ) (hb : 0 ≤ b) (hq : 0 ≤ q) (h : b ^ 5 < q ^ 12) :
    b ^ ((1 : ℝ) / 2.4) < q := by
  have k : (b ^ ((1 : ℝ) / 2.4)) ^ 12 < q ^ 12 := by
    rw [rpow_five_twelfths_pow b hb]; exact h
  exact lt_of_pow_lt_pow_left₀ 12 hq k

theorem lt_rpow_five_twelfths (b q : ℝ) (hb : 0 ≤ b) (h : q ^ 12 < b ^ 5) :
    q < b ^ ((1 : ℝ) / 2.4) := by
  have k : q ^ 12 < (b ^ ((1 : ℝ) / 2.4)) ^ 12 := by
    rw [rpow_five_twelfths_pow b hb]; exact h
  exact lt_of_pow_lt_pow_left₀ 12 (Real.rpow_nonneg hb _) k

theorem srgb_gamma_linear (pow : ℝ → ℝ → ℝ) (c : ℝ) (h : c ≤ 0.0031308) :
    srgb_gamma pow c = 12.92 * c := by
  unfold srgb_gamma
  rw [if_pos h]

theorem srgb_gamma_power (c : ℝ) (h : 0.0031308 < c) :
    srgb_gamma Real.rpow c = 1.055 * c ^ ((1 : ℝ) / 2.4) - 0.055 := by
  unfold srgb_gamma
  rw [if_neg (not_le.mpr h), Real.rpow_eq_pow]

/-- C7, as stated, fails: the pair `0.0031308 < 0.003130801` lies in `[0, 1]`
and straddles the threshold, and the encoding decreases across it. -/
theorem srgb_gamma_drop :
    (0 : ℝ) ≤ 0.0031308 ∧ (0.0031308 : ℝ) < 0.003130801 ∧ (0.003130801 : ℝ) ≤ 1 ∧
      srgb_gamma Real.rpow (0.003130801 : ℝ) < srgb_gamma Real.rpow (0.0031308 : ℝ) := by
  refine ⟨by norm_num, by norm_num, by norm_num, ?_⟩
  rw [srgb_gamma_linear Real.rpow 0.0031308 le_rfl,
    srgb_gamma_power 0.003130801 (by norm_num)]
  have k : (0.003130801 : ℝ) ^ ((1 : ℝ) / 2.4) < 0.095449936 / 1.055 :=
    rpow_five_twelfths_lt _ _ (by norm_num) (by norm_num) (by norm_num)
  have k2 : (1.055 : ℝ) * (0.003130801 : ℝ) ^ ((1 : ℝ) / 2.4) < 0.095449936 := by
    have := mul_lt_mul_of_pos_left k (show (0 : ℝ) < 1.055 by norm_num)
    calc (1.055 : ℝ) * (0.003130801 : ℝ) ^ ((1 : ℝ) / 2.4)
        < 1.055 * (0.095449936 / 1.055) := this
      _ = 0.095449936 := by norm_num
  linarith

/-- C7, amended. The sRGB gamma encoding is strictly increasing on
`[0, 0.0031308]` and on `(0.0031308, 1]`, and across the threshold whenever the
larger argument is at least `0.00313081`: for `0 <= a < b <= 1` with
`b <= 0.0031308`, or `0.0031308 < a`, or `0.00313081 <= b`, `f a < f b`. -/
theorem srgb_gamma_mono_off_gap (a b : ℝ) (ha : 0 ≤ a) (hab : a < b) (_hb : b ≤ 1)
    (h : b ≤ 0.0031308 ∨ 0.0031308 < a ∨ 0.00313081 ≤ b) :
    srgb_gamma Real.rpow a < srgb_gamma Real.rpow b := by
  have hmono : ∀ x y : ℝ, 0 ≤ x → x < y →
      x ^ ((1 : ℝ) / 2.4) < y ^ ((1 : ℝ) / 2.4) := fun x y hx hxy =>
    Real.rpow_lt_rpow hx hxy (by norm_num)
  by_cases hat : a ≤ 0.0031308
  · by_cases hbt : b ≤ 0.0031308
    · rw [srgb_gamma_linear _ a hat, srgb_gamma_linear _ b hbt]
      linarith
    · have hb' : (0.00313081 : ℝ) ≤ b := by
        rcases h with h | h | h
        · exact absurd h hbt
        · exact absurd hat (not_le.mpr h)
        · exact h
      rw [srgb_gamma_linear _ a hat, srgb_gamma_power b (not_le.mp hbt)]
      have k : (0.095449936 / 1.055 : ℝ) < (0.00313081 : ℝ) ^ ((1 : ℝ) / 2.4) :=
        lt_rpow_five_twelfths _ _ (by norm_num) (by norm_num)
      have k' : (0.00313081 : ℝ) ^ ((1 : ℝ) / 2.4) ≤ b ^ ((1 : ℝ) / 2.4) :=
        Real.rpow_le_rpow (by norm_num) hb' (by norm_num)
      have k2 : (0.095449936 : ℝ) < 1.055 * b ^ ((1 : ℝ) / 2.4) := by
        have := mul_lt_mul_of_pos_left (lt_of_lt_of_le k k') (show (0 : ℝ) < 1.055 by norm_num)
        calc (0.095449936 : ℝ) = 1.055 * (0.095449936 / 1.055) := by norm_num
          _ < 1.055 * b ^ ((1 : ℝ) / 2.4) := this
      linarith
  · have hat' : (0.0031308 : ℝ) < a := not_le.mp hat
    rw [srgb_gamma_power a hat', srgb_gamma_power b (lt_trans hat' hab)]
    have := hmono a b ha hab
    linarith

/-- Instance of C7 (amended) on the end points 0 and 1. -/
theorem srgb_gamma_mono_off_gap_witness :
    srgb_gamma Real.rpow (0 : ℝ) < srgb_gamma Real.rpow (1 : ℝ) :=
  srgb_gamma_mono_off_gap 0 1 le_rfl (by norm_num) le_rfl (Or.inr (Or.inr (by norm_num)))

/-! ## Monotonicity and continuity in the approximate converter -/

/-- C8. For a fixed falloff in `(0, 1]` the gamma function of the approximate
converter, `h c = 0` if `c = 0` and `(c * falloff) ^ 0.8` otherwise, is strictly
increasing in `c` on `[0, 1]`. -/
theorem approx_gamma_strict_mono (falloff a b : ℝ) (hf0 : 0 < falloff)
    (_hf1 : falloff ≤ 1) (ha : 0 ≤ a) (hab : a < b) (_hb : b ≤ 1) :
    approx_gamma Real.rpow falloff a < approx_gamma Real.rpow falloff b := by
  have z : (0.0 : ℝ) = 0 := by norm_num
  have hb0 : b ≠ 0 := by intro k; linarith
  have hbf : 0 < b * falloff := mul_pos (by linarith) hf0
  unfold approx_gamma gamma
  rw [z, if_neg hb0]
  by_cases h : a = 0
  · rw [if_pos h]
    exact Real.rpow_pos_of_pos hbf _
  · rw [if_neg h]
    exact Real.rpow_lt_rpow (mul_nonneg ha hf0.le) (mul_lt_mul_of_pos_right hab hf0)
      (by norm_num)

/-- Instance of C8 with falloff 1, comparing the ramp values 0 and 1. -/
theorem approx_gamma_strict_mono_witness :
    approx_gamma Real.rpow (1 : ℝ) 0 < approx_gamma Real.rpow (1 : ℝ) 1 :=
  approx_gamma_strict_mono 1 0 1 (by norm_num) (by norm_num) (by norm_num)
    (by norm_num) (by norm_num)

/-- C9. At each band boundary (440, 490, 510, 580, 645) the lower band's ramp
formulas, evaluated at the boundary, give in every channel the value the upper
band assigns at its start, which is the value the converter uses there; each of
these values is 0 or 1. -/
theorem band_boundaries_continuous :
    (band_380_440 (440 : ℝ) = band_440_490 440 ∧
      approx_bands (440 : ℝ) = band_440_490 440 ∧ band_440_490 (440 : ℝ) = (0, 0, 1)) ∧
    (band_440_490 (490 : ℝ) = band_490_510 490 ∧
      approx_bands (490 : ℝ) = band_490_510 490 ∧ band_490_510 (490 : ℝ) = (0, 1, 1)) ∧
    (band_490_510 (510 : ℝ) = band_510_580 510 ∧
      approx_bands (510 : ℝ) = band_510_580 510 ∧ band_510_580 (510 : ℝ) = (0, 1, 0)) ∧
    (band_510_580 (580 : ℝ) = band_580_645 580 ∧
      approx_bands (580 : ℝ) = band_580_645 580 ∧ band_580_645 (580 : ℝ) = (1, 1, 0)) ∧
    (band_580_645 (645 : ℝ) = band_645_781 645 ∧
      approx_bands (645 : ℝ) = band_645_781 645 ∧ band_645_781 (645 : ℝ) = (1, 0, 0)) := by
  refine ⟨⟨?_, approx_bands_440_490 440 (by norm_num) (by norm_num), ?_⟩,
    ⟨?_, approx_bands_490_510 490 (by norm_num) (by norm_num), ?_⟩,
    ⟨?_, approx_bands_510_580 510 (by norm_num) (by norm_num), ?_⟩,
    ⟨?_, approx_bands_580_645 580 (by norm_num) (by norm_num), ?_⟩,
    ⟨?_, approx_bands_645_781 645 (by norm_num) (by norm_num), ?_⟩⟩ <;>
  norm_num [band_380_440, band_440_490, band_490_510, band_510_580, band_580_645,
    band_645_781]

/-- C10, as stated, fails: at 650 nm the green ramp computed by the code is 0,
which is not `-(650-645)/65`. -/
theorem approx_bands_650_green_not_negative :
    (approx_bands (650 : ℝ)).2.1 = 0 ∧
      (approx_bands (650 : ℝ)).2.1 ≠ -(650 - 645) / 65 := by
  rw [approx_bands_645_781 650 (by norm_num) (by norm_num)]
  unfold band_645_781
  norm_num

/-- C10, amended. At 650 nm, which lies in the band `[645, 781)`, the band
ramps are `r = 1`, `g = 0`, `b = 0` and the falloff is `1.0`, before the gamma
exponent is applied. -/
theorem approx_bands_650 :
    approx_bands (650 : ℝ) = (1, 0, 0) ∧ approx_falloff (650 : ℝ) = 1.0 := by
  constructor
  · rw [approx_bands_645_781 650 (by norm_num) (by norm_num)]
    unfold band_645_781; norm_num
  · rw [approx_falloff_plateau 650 (by norm_num) (by norm_num)]
    norm_num

/-! ## Ranges of the approximate converter -/

section FalloffLemmas

variable {α : Type} [LinearOrderedField α]

theorem approx_falloff_rising (lam : α) (h1 : 380 ≤ lam) (h2 : lam < 420) :
    approx_falloff lam = 0.3 + 0.7 * (lam - 380) / (420 - 380) := by
  unfold approx_falloff
  rw [if_pos ⟨h1, h2⟩]

theorem approx_falloff_falling (lam : α) (h1 : 701 ≤ lam) (h2 : lam < 781) :
    approx_falloff lam = 0.3 + 0.7 * (780 - lam) / (780 - 700) := by
  unfold approx_falloff
  rw [if_neg (by intro k; linarith [k.2]), if_neg (by intro k; linarith [k.2]),
    if_pos ⟨h1, h2⟩]

end FalloffLemmas

/-- Every real wavelength lies outside `[380, 781)` or in one of the six bands. -/
theorem band_cases (lam : ℝ) :
    (lam < 380 ∨ 781 ≤ lam) ∨ (380 ≤ lam ∧ lam < 440) ∨ (440 ≤ lam ∧ lam < 490) ∨
    (490 ≤ lam ∧ lam < 510) ∨ (510 ≤ lam ∧ lam < 580) ∨ (580 ≤ lam ∧ lam < 645) ∨
    (645 ≤ lam ∧ lam < 781) := by
  rcases lt_or_le lam 380 with h0 | h0
  · exact Or.inl (Or.inl h0)
  rcases lt_or_le lam 440 with h1 | h1
  · exact Or.inr (Or.inl ⟨h0, h1⟩)
  rcases lt_or_le lam 490 with h2 | h2
  · exact Or.inr (Or.inr (Or.inl ⟨h1, h2⟩))
  rcases lt_or_le lam 510 with h3 | h3
  · exact Or.inr (Or.inr (Or.inr (Or.inl ⟨h2, h3⟩)))
  rcases lt_or_le lam 580 with h4 | h4
  · exact Or.inr (Or.inr (Or.inr (Or.inr (Or.inl ⟨h3, h4⟩))))
  rcases lt_or_le lam 645 with h5 | h5
  · exact Or.inr (Or.inr (Or.inr (Or.inr (Or.inr (Or.inl ⟨h4, h5⟩)))))
  rcases lt_or_le lam 781 with h6 | h6
  · exact Or.inr (Or.inr (Or.inr (Or.inr (Or.inr (Or.inr ⟨h5, h6⟩)))))
  · exact Or.inl (Or.inr h6)

/-- The three band ramps lie in `[0, 1]` at every wavelength. -/
theorem approx_bands_unit (lam : ℝ) :
    (0 ≤ (approx_bands lam).1 ∧ (approx_bands lam).1 ≤ 1) ∧
    (0 ≤ (approx_bands lam).2.1 ∧ (approx_bands lam).2.1 ≤ 1) ∧
    (0 ≤ (approx_bands lam).2.2 ∧ (approx_bands lam).2.2 ≤ 1) := by
  rcases band_cases lam with h | ⟨h1, h2⟩ | ⟨h1, h2⟩ | ⟨h1, h2⟩ | ⟨h1, h2⟩ | ⟨h1, h2⟩ | ⟨h1, h2⟩
  · rw [approx_bands_outside lam h]
    norm_num [band_else]
  · rw [approx_bands_380_440 lam h1 h2]
    norm_num [band_380_440]
    constructor <;> linarith
  · rw [approx_bands_440_490 lam h1 h2]
    norm_num [band_440_490]
    constructor <;> linarith
  · rw [approx_bands_490_510 lam h1 h2]
    norm_num [band_490_510]
    constructor <;> linarith
  · rw [approx_bands_510_580 lam h1 h2]
    norm_num [band_510_580]
    constructor <;> linarith
  · rw [approx_bands_580_645 lam h1 h2]
    norm_num [band_580_645]
    constructor <;> linarith
  · rw [approx_bands_645_781 lam h1 h2]
    norm_num [band_645_781]

/-- Inside `[380, 781)` one band ramp is exactly 1 and one is exactly 0. -/
theorem approx_bands_one_and_zero (lam : ℝ) (h1 : 380 ≤ lam) (h2 : lam < 781) :
    ((approx_bands lam).1 = 1 ∨ (approx_bands lam).2.1 = 1 ∨ (approx_bands lam).2.2 = 1) ∧
    ((approx_bands lam).1 = 0 ∨ (approx_bands lam).2.1 = 0 ∨ (approx_bands lam).2.2 = 0) := by
  rcases band_cases lam with h | ⟨k1, k2⟩ | ⟨k1, k2⟩ | ⟨k1, k2⟩ | ⟨k1, k2⟩ | ⟨k1, k2⟩ | ⟨k1, k2⟩
  · rcases h with h | h <;> linarith
  · rw [approx_bands_380_440 lam k1 k2]
    norm_num [band_380_440]
  · rw [approx_bands_440_490 lam k1 k2]
    norm_num [band_440_490]
  · rw [approx_bands_490_510 lam k1 k2]
    norm_num [band_490_510]
  · rw [approx_bands_510_580 lam k1 k2]
    norm_num [band_510_580]
  · rw [approx_bands_580_645 lam k1 k2]
    norm_num [band_580_645]
  · rw [approx_bands_645_781 lam k1 k2]
    norm_num [band_645_781]

/-- The falloff lies in `[0, 1]` at every wavelength. -/
theorem approx_falloff_unit (lam : ℝ) :
    0 ≤ approx_falloff lam ∧ approx_falloff lam ≤ 1 := by
  rcases lt_or_le lam 380 with h0 | h0
  · rw [approx_falloff_outside lam (Or.inl h0)]; norm_num
  rcases lt_or_le lam 420 with h1 | h1
  · rw [approx_falloff_rising lam h0 h1]
    norm_num
    constructor <;> linarith
  rcases lt_or_le lam 701 with h2 | h2
  · rw [approx_falloff_plateau lam h1 h2]; norm_num
  rcases lt_or_le lam 781 with h3 | h3
  · rw [approx_falloff_falling lam h2 h3]
    norm_num
    constructor <;> linarith
  · rw [approx_falloff_outside lam (Or.inr h3)]; norm_num

/-- Inside `[380, 781)` the falloff is positive. -/
theorem approx_falloff_pos (lam : ℝ) (h1 : 380 ≤ lam) (h2 : lam < 781) :
    0 < approx_falloff lam := by
  rcases lt_or_le lam 420 with k1 | k1
  · rw [approx_falloff_rising lam h1 k1]
    norm_num
    linarith
  rcases lt_or_le lam 701 with k2 | k2
  · rw [approx_falloff_plateau lam k1 k2]; norm_num
  · rw [approx_falloff_falling lam k2 h2]
    norm_num
    linarith

theorem approx_gamma_zero (pow : ℝ → ℝ → ℝ) (f : ℝ) : approx_gamma pow f 0 = 0 := by
  have z : (0.0 : ℝ) = 0 := by norm_num
  unfold approx_gamma
  rw [z, if_pos rfl]

theorem approx_gamma_one (f : ℝ) : approx_gamma Real.rpow f 1 = f ^ (0.8 : ℝ) := by
  have z : (0.0 : ℝ) = 0 := by norm_num
  unfold approx_gamma gamma
  rw [z, if_neg one_ne_zero, one_mul, Real.rpow_eq_pow]

/-- A gamma-corrected channel lies between 0 and `falloff ^ 0.8`. -/
theorem approx_gamma_bounds (f c : ℝ) (hf : 0 ≤ f) (hc0 : 0 ≤ c) (hc1 : c ≤ 1) :
    0 ≤ approx_gamma Real.rpow f c ∧ approx_gamma Real.rpow f c ≤ f ^ (0.8 : ℝ) := by
  have z : (0.0 : ℝ) = 0 := by norm_num
  unfold approx_gamma gamma
  rw [z]
  by_cases h : c = 0
  · rw [if_pos h]
    exact ⟨le_rfl, Real.rpow_nonneg hf _⟩
  · rw [if_neg h, Real.rpow_eq_pow]
    have hcf : c * f ≤ f := by nlinarith
    exact ⟨Real.rpow_nonneg (mul_nonneg hc0 hf) _,
      Real.rpow_le_rpow (mul_nonneg hc0 hf) hcf (by norm_num)⟩

theorem max_of_three (x y z m : ℝ) (hx : x ≤ m) (hy : y ≤ m) (hz : z ≤ m)
    (h : x = m ∨ y = m ∨ z = m) : max x (max y z) = m := by
  apply le_antisymm (max_le hx (max_le hy hz))
  rcases h with h | h | h
  · rw [← h]; exact le_max_left _ _
  · rw [← h]; exact le_trans (le_max_left _ _) (le_max_right _ _)
  · rw [← h]; exact le_trans (le_max_right _ _) (le_max_right _ _)

theorem min_of_three (x y z m : ℝ) (hx : m ≤ x) (hy : m ≤ y) (hz : m ≤ z)
    (h : x = m ∨ y = m ∨ z = m) : min x (min y z) = m := by
  apply le_antisymm _ (le_min hx (le_min hy hz))
  rcases h with h | h | h
  · rw [← h]; exact min_le_left _ _
  · rw [← h]; exact le_trans (min_le_right _ _) (min_le_left _ _)
  · rw [← h]; exact le_trans (min_le_right _ _) (min_le_right _ _)

/-- C11, as stated, fails: 780.5 lies in `[701, 781)` and the falloff there is
below 0.3. -/
theorem approx_falloff_below_three_tenths :
    (701 : ℝ) ≤ 780.5 ∧ (780.5 : ℝ) < 781 ∧ approx_falloff (780.5 : ℝ) < 0.3 := by
  refine ⟨by norm_num, by norm_num, ?_⟩
  rw [approx_falloff_falling 780.5 (by norm_num) (by norm_num)]
  norm_num

/-- C11, amended. The falloff lies in `[0.3, 1.0]` for every real wavelength in
`[380, 420)` and in `[701, 780]`, with value 0.3 at 380 and at 780; for
wavelengths in `(780, 781)` the same ramp continues below 0.3 and stays above
0.29125. -/
theorem approx_falloff_edge_bounds (lam : ℝ) :
    (380 ≤ lam ∧ lam < 420 → 0.3 ≤ approx_falloff lam ∧ approx_falloff lam ≤ 1.0) ∧
    (701 ≤ lam ∧ lam ≤ 780 → 0.3 ≤ approx_falloff lam ∧ approx_falloff lam ≤ 1.0) ∧
    (780 < lam ∧ lam < 781 → 0.29125 < approx_falloff lam ∧ approx_falloff lam < 0.3) ∧
    approx_falloff (380 : ℝ) = 0.3 ∧ approx_falloff (780 : ℝ) = 0.3 := by
  refine ⟨?_, ?_, ?_, ?_, ?_⟩
  · rintro ⟨h1, h2⟩
    rw [approx_falloff_rising lam h1 h2]
    norm_num
    constructor <;> linarith
  · rintro ⟨h1, h2⟩
    rw [approx_falloff_falling lam h1 (by linarith)]
    norm_num
    constructor <;> linarith
  · rintro ⟨h1, h2⟩
    rw [approx_falloff_falling lam (by linarith) h2]
    norm_num
    constructor <;> linarith
  · rw [approx_falloff_rising 380 (by norm_num) (by norm_num)]
    norm_num
  · rw [approx_falloff_falling 780 (by norm_num) (by norm_num)]
    norm_num

/-- Instance of C11 (amended) at 400 nm, on the rising ramp. -/
theorem approx_falloff_edge_bounds_witness :
    0.3 ≤ approx_falloff (400 : ℝ) ∧ approx_falloff (400 : ℝ) ≤ 1.0 :=
  (approx_falloff_edge_bounds 400).1 ⟨by norm_num, by norm_num⟩

/-- C12. For every real wavelength the band ramps and the falloff lie in
`[0, 1]`, so the base of the 0.8 power is neither negative nor above 1, and each
of the three channels returned by `approx_wavelength_to_rgb` lies in `[0, 1]`. -/
theorem approx_output_unit (lam : ℝ) :
    (0 ≤ approx_falloff lam ∧ approx_falloff lam ≤ 1) ∧
    ((0 ≤ (approx_bands lam).1 ∧ (approx_bands lam).1 ≤ 1) ∧
      (0 ≤ (approx_bands lam).2.1 ∧ (approx_bands lam).2.1 ≤ 1) ∧
      (0 ≤ (approx_bands lam).2.2 ∧ (approx_bands lam).2.2 ≤ 1)) ∧
    (0 ≤ (approx_wavelength_to_rgb Real.rpow lam).1 ∧
      (approx_wavelength_to_rgb Real.rpow lam).1 ≤ 1) ∧
    (0 ≤ (approx_wavelength_to_rgb Real.rpow lam).2.1 ∧
      (approx_wavelength_to_rgb Real.rpow lam).2.1 ≤ 1) ∧
    (0 ≤ (approx_wavelength_to_rgb Real.rpow lam).2.2 ∧
      (approx_wavelength_to_rgb Real.rpow lam).2.2 ≤ 1) := by
  obtain ⟨f0, f1⟩ := approx_falloff_unit lam
  obtain ⟨⟨r0, r1⟩, ⟨g0, g1⟩, ⟨b0, b1⟩⟩ := approx_bands_unit lam
  have top : approx_falloff lam ^ (0.8 : ℝ) ≤ 1 := Real.rpow_le_one f0 f1 (by norm_num)
  have hr := approx_gamma_bounds (approx_falloff lam) _ f0 r0 r1
  have hg := approx_gamma_bounds (approx_falloff lam) _ f0 g0 g1
  have hb := approx_gamma_bounds (approx_falloff lam) _ f0 b0 b1
  exact ⟨⟨f0, f1⟩, ⟨⟨r0, r1⟩, ⟨g0, g1⟩, ⟨b0, b1⟩⟩,
    ⟨hr.1, le_trans hr.2 top⟩, ⟨hg.1, le_trans hg.2 top⟩, ⟨hb.1, le_trans hb.2 top⟩⟩

/-- C18. For every real wavelength in `[380, 781)` at least one band ramp is
exactly 1 and at least one is exactly 0; the largest output channel is
`falloff ^ 0.8` and the smallest is 0. -/
theorem approx_output_extremes (lam : ℝ) (h1 : 380 ≤ lam) (h2 : lam < 781) :
    ((approx_bands lam).1 = 1 ∨ (approx_bands lam).2.1 = 1 ∨ (approx_bands lam).2.2 = 1) ∧
    ((approx_bands lam).1 = 0 ∨ (approx_bands lam).2.1 = 0 ∨ (approx_bands lam).2.2 = 0) ∧
    max (approx_wavelength_to_rgb Real.rpow lam).1
      (max (approx_wavelength_to_rgb Real.rpow lam).2.1
        (approx_wavelength_to_rgb Real.rpow lam).2.2) = approx_falloff lam ^ (0.8 : ℝ) ∧
    min (approx_wavelength_to_rgb Real.rpow lam).1
      (min (approx_wavelength_to_rgb Real.rpow lam).2.1
        (approx_wavelength_to_rgb Real.rpow lam).2.2) = 0 := by
  obtain ⟨hone, hzero⟩ := approx_bands_one_and_zero lam h1 h2
  obtain ⟨f0, _⟩ := approx_falloff_unit lam
  obtain ⟨⟨r0, r1⟩, ⟨g0, g1⟩, ⟨b0, b1⟩⟩ := approx_bands_unit lam
  have hr := approx_gamma_bounds (approx_falloff lam) _ f0 r0 r1
  have hg := approx_gamma_bounds (approx_falloff lam) _ f0 g0 g1
  have hb := approx_gamma_bounds (approx_falloff lam) _ f0 b0 b1
  refine ⟨hone, hzero, ?_, ?_⟩
  · apply max_of_three _ _ _ _ hr.2 hg.2 hb.2
    rcases hone with h | h | h
    · left; simp only [h]; exact approx_gamma_one _
    · right; left; simp only [h]; exact approx_gamma_one _
    · right; right; simp only [h]; exact approx_gamma_one _
  · apply min_of_three _ _ _ _ hr.1 hg.1 hb.1
    rcases hzero with h | h | h
    · left; simp only [h]; exact approx_gamma_zero _ _
    · right; left; simp only [h]; exact approx_gamma_zero _ _
    · right; right; simp only [h]; exact approx_gamma_zero _ _

/-- Instance of C18 at 500 nm. -/
theorem approx_output_extremes_witness :
    max (approx_wavelength_to_rgb Real.rpow (500 : ℝ)).1
      (max (approx_wavelength_to_rgb Real.rpow (500 : ℝ)).2.1
        (approx_wavelength_to_rgb Real.rpow (500 : ℝ)).2.2) =
      approx_falloff (500 : ℝ) ^ (0.8 : ℝ) :=
  (approx_output_extremes 500 (by norm_num) (by norm_num)).2.2.1

/-! ## Clamping and quantisation -/

theorem clamp_default_eq (x : ℝ) :
    clamp_default x = if x < 0 then 0 else if x > 0.99 then 0.99 else x := by
  have z : (0.0 : ℝ) = 0 := by norm_num
  unfold clamp_default clamp
  rw [z]

theorem clamp_default_range (x : ℝ) : 0 ≤ clamp_default x ∧ clamp_default x ≤ 0.99 := by
  rw [clamp_default_eq]
  split_ifs with h1 h2
  · norm_num
  · norm_num
  · exact ⟨not_lt.mp h1, not_lt.mp h2⟩

/-- A quantised channel is an integer between 0 and 253. -/
theorem rgb_clamp_channel_range (c : ℝ) :
    ∃ n : Int, rgb_clamp_channel c = (n : ℝ) ∧ 0 ≤ n ∧ n ≤ 253 := by
  obtain ⟨h0, h1⟩ := clamp_default_range c
  refine ⟨double_to_int (255.999 * clamp_default c), rfl, ?_, ?_⟩
  · exact (double_to_int_nonneg_iff _).mpr (by nlinarith)
  · have : double_to_int (255.999 * clamp_default c) < 254 :=
      (double_to_int_lt_iff _ 254 (by norm_num)).mpr (by push_cast; nlinarith)
    omega

theorem rgb_clamp_channel_one : rgb_clamp_channel (1 : ℝ) = 253 := by
  have e : clamp_default (1 : ℝ) = 0.99 := by
    rw [clamp_default_eq]; norm_num
  unfold rgb_clamp_channel
  rw [e, double_to_int_of_nonneg _ (by norm_num)]
  have k : Int.floor ((255.999 : ℝ) * 0.99) = 253 := by
    rw [Int.floor_eq_iff]
    norm_num
  rw [k]
  norm_num

/-- C13 at its failing input: the channel value 1 is quantised to 253, and
`253 / 255` differs from 1 by `2 / 255`, more than `1 / 255`. -/
theorem quantise_round_trip_at_one :
    rgb_clamp_channel (1 : ℝ) = 253 ∧
      |rgb_clamp_channel (1 : ℝ) / 255 - 1| = 2 / 255 ∧
      (1 : ℝ) / 255 < |rgb_clamp_channel (1 : ℝ) / 255 - 1| := by
  have e : |rgb_clamp_channel (1 : ℝ) / 255 - 1| = 2 / 255 := by
    rw [rgb_clamp_channel_one]
    rw [abs_of_neg (by norm_num)]
    norm_num
  refine ⟨rgb_clamp_channel_one, e, ?_⟩
  rw [e]
  norm_num

/-- C14 at its failing input: `clamp` with its default bounds maps 1 to 0.99,
not to 1; in general it returns 0 below 0, 0.99 above 0.99 and `x` otherwise. -/
theorem clamp_default_at_one :
    clamp_default (1 : ℝ) = 0.99 ∧ clamp_default (1 : ℝ) ≠ 1 ∧
      ∀ x : ℝ, clamp_default x = if x < 0 then 0 else if x > 0.99 then 0.99 else x := by
  have e : clamp_default (1 : ℝ) = 0.99 := by
    rw [clamp_default_eq]; norm_num
  refine ⟨e, ?_, clamp_default_eq⟩
  rw [e]
  norm_num

/-- C15. For every triple of real inputs, negative or above 1 included, each
channel left by `rgb_clamp` is an integer in `[0, 255]`. -/
theorem rgb_clamp_range (r g b : ℝ) :
    (∃ n : Int, (rgb_clamp (r, g, b)).1 = (n : ℝ) ∧ 0 ≤ n ∧ n ≤ 255) ∧
    (∃ n : Int, (rgb_clamp (r, g, b)).2.1 = (n : ℝ) ∧ 0 ≤ n ∧ n ≤ 255) ∧
    (∃ n : Int, (rgb_clamp (r, g, b)).2.2 = (n : ℝ) ∧ 0 ≤ n ∧ n ≤ 255) := by
  obtain ⟨n1, e1, a1, b1⟩ := rgb_clamp_channel_range r
  obtain ⟨n2, e2, a2, b2⟩ := rgb_clamp_channel_range g
  obtain ⟨n3, e3, a3, b3⟩ := rgb_clamp_channel_range b
  exact ⟨⟨n1, e1, a1, by omega⟩, ⟨n2, e2, a2, by omega⟩, ⟨n3, e3, a3, by omega⟩⟩

/-! ## Guard of the fractional power -/

/-- C17. In the gamma step of `wavelength_to_rgb` the power is taken only of a
base above 0.0031308: for every real channel value, negative ones included, the
result is `12.92 * c` whatever `pow` is when `c <= 0.0031308`, and two power
functions that agree on bases above 0.0031308 give the same channel and the same
converter output. -/
theorem srgb_gamma_pow_guard (pow1 pow2 : ℝ → ℝ → ℝ) (c : ℝ)
    (table : List (ℝ × ℝ × ℝ)) (lam : ℝ)
    (h : ∀ x y : ℝ, 0.0031308 < x → pow1 x y = pow2 x y) :
    (c ≤ 0.0031308 → srgb_gamma pow1 c = 12.92 * c) ∧
    (0.0031308 < c → srgb_gamma pow1 c = 1.055 * pow1 c (1 / 2.4) - 0.055) ∧
    srgb_gamma pow1 c = srgb_gamma pow2 c ∧
    wavelength_to_rgb pow1 table lam = wavelength_to_rgb pow2 table lam := by
  have key : ∀ d : ℝ, srgb_gamma pow1 d = srgb_gamma pow2 d := by
    intro d
    unfold srgb_gamma
    by_cases k : d ≤ 0.0031308
    · rw [if_pos k, if_pos k]
    · rw [if_neg k, if_neg k, h d _ (not_le.mp k)]
  refine ⟨srgb_gamma_linear pow1 c, ?_, key c, ?_⟩
  · intro k
    unfold srgb_gamma
    rw [if_neg (not_le.mpr k)]
  · unfold wavelength_to_rgb
    simp only [key]

/-- Instance of C17 at the negative channel value -1: `Real.rpow` and a
function that is 0 on every base up to 0.0031308 give the same result. -/
theorem srgb_gamma_pow_guard_witness :
    srgb_gamma Real.rpow (-1 : ℝ) =
      srgb_gamma (fun x y => if 0.0031308 < x then Real.rpow x y else 0) (-1 : ℝ) :=
  (srgb_gamma_pow_guard Real.rpow (fun x y => if 0.0031308 < x then Real.rpow x y else 0)
    (-1) [] 400 (fun x y k => by simp only [if_pos k])).2.2.1

/-! ## Truncation of the table index -/

/-- C19. The table index is `lam - 400` truncated toward zero: for
`399 < lam < 401` it is 0 and the result is that of 400 nm, and for every real
`lam >= 400` the index and the result are those of `floor lam`. -/
theorem wavelength_to_rgb_truncates (pow : ℝ → ℝ → ℝ) (table : List (ℝ × ℝ × ℝ))
    (lam : ℝ) :
    (399 < lam ∧ lam < 401 → double_to_int (lam - 400) = 0 ∧
      wavelength_to_rgb pow table lam = wavelength_to_rgb pow table 400) ∧
    (400 ≤ lam → double_to_int (lam - 400) = Int.floor lam - 400 ∧
      double_to_int (((Int.floor lam : Int) : ℝ) - 400) = Int.floor lam - 400 ∧
      wavelength_to_rgb pow table lam =
        wavelength_to_rgb pow table ((Int.floor lam : Int) : ℝ)) := by
  have e400 : double_to_int ((400 : ℝ) - 400) = 0 := by
    rw [double_to_int_of_nonneg _ (by norm_num)]
    norm_num
  constructor
  · rintro ⟨h1, h2⟩
    have e : double_to_int (lam - 400) = 0 := by
      rcases lt_or_le lam 400 with k | k
      · rw [double_to_int_of_neg _ (by linarith), Int.ceil_eq_iff]
        constructor
        · push_cast; linarith
        · push_cast; linarith
      · rw [double_to_int_of_nonneg _ (by linarith), Int.floor_eq_iff]
        constructor
        · push_cast; linarith
        · push_cast; linarith
    refine ⟨e, ?_⟩
    unfold wavelength_to_rgb
    rw [e, e400]
  · intro h
    have a : double_to_int (lam - 400) = Int.floor lam - 400 := by
      rw [double_to_int_of_nonneg _ (by linarith)]
      have : lam - 400 = lam - ((400 : Int) : ℝ) := by norm_num
      rw [this, Int.floor_sub_int]
    have hfl : (400 : Int) ≤ Int.floor lam := Int.le_floor.mpr (by exact_mod_cast h)
    have b : double_to_int (((Int.floor lam : Int) : ℝ) - 400) = Int.floor lam - 400 := by
      have hnn : (0 : ℝ) ≤ ((Int.floor lam : Int) : ℝ) - 400 := by
        have : ((400 : Int) : ℝ) ≤ ((Int.floor lam : Int) : ℝ) := by exact_mod_cast hfl
        push_cast at this
        linarith
      rw [double_to_int_of_nonneg _ hnn]
      have : ((Int.floor lam : Int) : ℝ) - 400 = ((Int.floor lam - 400 : Int) : ℝ) := by
        push_cast; ring
      rw [this, Int.floor_intCast]
    refine ⟨a, b, ?_⟩
    unfold wavelength_to_rgb
    rw [a, b]

/-- Instance of C19 at 400.5 nm. -/
theorem wavelength_to_rgb_truncates_witness :
    double_to_int ((400.5 : ℝ) - 400) = 0 ∧
      wavelength_to_rgb Real.rpow (List.replicate 351 ((0 : ℝ), (0 : ℝ), (0 : ℝ))) 400.5 =
        wavelength_to_rgb Real.rpow (List.replicate 351 ((0 : ℝ), (0 : ℝ), (0 : ℝ))) 400 :=
  (wavelength_to_rgb_truncates Real.rpow (List.replicate 351 ((0 : ℝ), (0 : ℝ), (0 : ℝ)))
    400.5).1 ⟨by norm_num, by norm_num⟩

/-! ## The loops of `main` -/

section LoopLemmas

variable {β : Type}

theorem pixel_loop_length (line : β) (px : Int) :
    ∀ (n : Nat) (s : Int), (px - s).toNat = n → (pixel_loop line px s).length = n := by
  intro n
  induction n with
  | zero =>
    intro s hs
    rw [pixel_loop, if_neg (by omega)]
    rfl
  | succ n ih =>
    intro s hs
    rw [pixel_loop, if_pos (by omega), List.length_cons, ih (s + 1) (by omega)]

theorem pixel_loop_mem (line p : β) (px : Int) :
    ∀ (n : Nat) (s : Int), (px - s).toNat = n → p ∈ pixel_loop line px s → p = line := by
  intro n
  induction n with
  | zero =>
    intro s hs hp
    rw [pixel_loop, if_neg (by omega)] at hp
    exact absurd hp (List.not_mem_nil p)
  | succ n ih =>
    intro s hs hp
    rw [pixel_loop, if_pos (by omega)] at hp
    rcases List.mem_cons.mp hp with k | k
    · exact k
    · exact ih (s + 1) (by omega) k

theorem sample_loop_length (pixel : Int → β) (px : Int) :
    ∀ (n : Nat) (i : Int), (700 - i).toNat = n →
      (sample_loop pixel px i).length = n * px.toNat := by
  intro n
  induction n with
  | zero =>
    intro i hi
    rw [sample_loop, if_neg (by omega)]
    simp
  | succ n ih =>
    intro i hi
    rw [sample_loop, if_pos (by omega), List.length_append, ih (i + 1) (by omega),
      pixel_loop_length (pixel i) px px.toNat 0 (by omega)]
    ring

theorem sample_loop_mem (pixel : Int → β) (p : β) (px : Int) :
    ∀ (n : Nat) (i : Int), (700 - i).toNat = n → p ∈ sample_loop pixel px i →
      ∃ k : Int, i ≤ k ∧ k < 700 ∧ p = pixel k := by
  intro n
  induction n with
  | zero =>
    intro i hi hp
    rw [sample_loop, if_neg (by omega)] at hp
    exact absurd hp (List.not_mem_nil p)
  | succ n ih =>
    intro i hi hp
    rw [sample_loop, if_pos (by omega)] at hp
    rcases List.mem_append.mp hp with k | k
    · exact ⟨i, le_rfl, by omega, pixel_loop_mem (pixel i) p px _ 0 rfl k⟩
    · obtain ⟨m, m1, m2, m3⟩ := ih (i + 1) (by omega) k
      exact ⟨m, by omega, m2, m3⟩

theorem row_loop_length (pixel : Int → β) (px : Int) :
    ∀ (n : Nat) (j : Int), (j + 1).toNat = n →
      (row_loop pixel px j).length = n * (sample_loop pixel px 400).length := by
  intro n
  induction n with
  | zero =>
    intro j hj
    rw [row_loop, if_neg (by omega)]
    simp
  | succ n ih =>
    intro j hj
    rw [row_loop, if_pos (by omega), List.length_append, ih (j - 1) (by omega)]
    ring

theorem row_loop_mem (pixel : Int → β) (p : β) (px : Int) :
    ∀ (n : Nat) (j : Int), (j + 1).toNat = n → p ∈ row_loop pixel px j →
      p ∈ sample_loop pixel px 400 := by
  intro n
  induction n with
  | zero =>
    intro j hj hp
    rw [row_loop, if_neg (by omega)] at hp
    exact absurd hp (List.not_mem_nil p)
  | succ n ih =>
    intro j hj hp
    rw [row_loop, if_pos (by omega)] at hp
    rcases List.mem_append.mp hp with k | k
    · exact k
    · exact ih (j - 1) (by omega) k

end LoopLemmas

/-- C16. For every integer wavelength `i` with `400 <= i < 700` the row index
`i - 400` lies in `[0, 351)`, so on a table of 351 rows the read is inside the
table and a colour is returned; every pixel line that `main` writes comes from
such a sample. -/
theorem main_samples_in_table (pow : ℝ → ℝ → ℝ) (table : List (ℝ × ℝ × ℝ))
    (hlen : table.length = 351) (i : Int) (h1 : 400 ≤ i) (h2 : i < 700) :
    double_to_int ((i : ℝ) - 400) = i - 400 ∧ 0 ≤ i - 400 ∧ i - 400 < 351 ∧
    (cie_colour_match table (double_to_int ((i : ℝ) - 400))).isSome ∧
    (wavelength_to_rgb pow table (i : ℝ)).isSome ∧
    (∀ p ∈ (main pow table).body, ∃ k : Int, 400 ≤ k ∧ k < 700 ∧
      p = main_pixel pow table k ∧ p.isSome) := by
  have idx : ∀ k : Int, 400 ≤ k → double_to_int ((k : ℝ) - 400) = k - 400 := by
    intro k hk
    have hnn : (0 : ℝ) ≤ (k : ℝ) - 400 := by
      have : ((400 : Int) : ℝ) ≤ (k : ℝ) := by exact_mod_cast hk
      push_cast at this
      linarith
    rw [double_to_int_of_nonneg _ hnn]
    have : (k : ℝ) - 400 = ((k - 400 : Int) : ℝ) := by push_cast; ring
    rw [this, Int.floor_intCast]
  have look : ∀ k : Int, 400 ≤ k → k < 700 →
      ∃ row, cie_colour_match table (double_to_int ((k : ℝ) - 400)) = some row := by
    intro k hk1 hk2
    rw [idx k hk1]
    obtain ⟨w, hw⟩ := cie_colour_match_eq_some table (k - 400) (by omega) (by omega)
    exact ⟨_, hw⟩
  have conv : ∀ k : Int, 400 ≤ k → k < 700 →
      (wavelength_to_rgb pow table (k : ℝ)).isSome := by
    intro k hk1 hk2
    obtain ⟨⟨X, Y, Z⟩, hrow⟩ := look k hk1 hk2
    rw [wavelength_to_rgb_of_row pow table _ X Y Z hrow]
    rfl
  refine ⟨idx i h1, by omega, by omega, ?_, conv i h1 h2, ?_⟩
  · obtain ⟨row, hrow⟩ := look i h1 h2
    rw [hrow]
    rfl
  · intro p hp
    have hs := row_loop_mem (main_pixel pow table) p px_per_wavelength _ image_height rfl hp
    obtain ⟨k, k1, k2, k3⟩ := sample_loop_mem (main_pixel pow table) p px_per_wavelength _ 400 rfl hs
    refine ⟨k, k1, k2, k3, ?_⟩
    rw [k3]
    unfold main_pixel
    rw [Option.isSome_map']
    exact conv k k1 k2

/-- Instance of C16 at the last sample, 699 nm, on a table of 351 zero rows. -/
theorem main_samples_in_table_witness :
    double_to_int (((699 : Int) : ℝ) - 400) = 699 - 400 ∧
      (wavelength_to_rgb Real.rpow (List.replicate 351 ((0 : ℝ), (0 : ℝ), (0 : ℝ)))
        ((699 : Int) : ℝ)).isSome :=
  have t := main_samples_in_table Real.rpow (List.replicate 351 ((0 : ℝ), (0 : ℝ), (0 : ℝ)))
    (List.length_replicate 351 _) 699 (by norm_num) (by norm_num)
  ⟨t.1, t.2.2.2.2.1⟩

/-- C20 evaluated on the code: each row holds `image_width = 600` pixel lines,
but the row loop runs for `j = 100, 99, ..., 0`, that is `image_height + 1 = 101`
times, so `main` writes 60600 pixel lines under a header that declares
`600 x 100 = 60000`. -/
theorem main_writes_101_rows (pow : ℝ → ℝ → ℝ) (table : List (ℝ × ℝ × ℝ)) :
    (main pow table).width = 600 ∧ (main pow table).height = 100 ∧
    (sample_loop (main_pixel pow table) px_per_wavelength 400).length = 600 ∧
    (main pow table).body.length = 101 * 600 ∧
    ((main pow table).body.length : Int) ≠ (main pow table).width * (main pow table).height := by
  have row : (sample_loop (main_pixel pow table) px_per_wavelength 400).length = 600 := by
    rw [sample_loop_length (main_pixel pow table) px_per_wavelength 300 400 (by decide)]
    decide
  have body : (main pow table).body.length = 101 * 600 := by
    show (row_loop (main_pixel pow table) px_per_wavelength image_height).length = 101 * 600
    rw [row_loop_length (main_pixel pow table) px_per_wavelength 101 image_height (by decide),
      row]
  have w : (main pow table).width = 600 := by
    show image_width = 600
    decide
  have h : (main pow table).height = 100 := by
    show image_height = 100
    decide
  refine ⟨w, h, row, body, ?_⟩
  rw [body, w, h]
  decide

end WavelengthToRGB
